import Mathlib

/-!
# Verification of `cn_stock_holidays/zipline/exchange_calendar_shsz.py`

Shallow embedding of the SHSZ exchange-calendar module and of the parts of
its collaborators (`pandas.date_range` with a custom business day,
`DatetimeIndex.tz_localize`, and the `zipline` `TradingCalendar` base
constructor) that the module's behaviour depends on.

Conventions of the embedding:

* A calendar date is its epoch day number (days since 1970-01-01, a `Nat`).
  1970-01-01 is a Thursday, so `weekday d = (d + 3) % 7` with Monday = 0.
* An absolute instant is its count of minutes since 1970-01-01T00:00 UTC
  (an `Int`); a wall-clock time of day is its count of minutes after local
  midnight (a `Nat`).  Every instant the source manipulates is a whole
  minute: the configured session times are whole minutes and every UTC
  offset of Asia/Shanghai in the era covered by the calendar
  (`start_default` = 1990-12-19 onwards) is a whole number of minutes.
  Hence the source's nanosecond arithmetic is exact on this grid, its
  `astype('datetime64[m]')` truncation is the identity, and the division
  of the boundary deltas by `NANOS_IN_MINUTE` is exact; a minute-resolution
  embedding is therefore faithful.
* `DatetimeIndex.tz_localize(tz)` is called with its default arguments, so
  pandas raises `NonExistentTimeError` / `AmbiguousTimeError` whenever the
  timezone data reports the local time as falling in a transition gap or a
  transition overlap.  `localizeOne` models this with `Except`, deciding
  the anomaly from transition data exactly as the timezone database does:
  an offset `o` is admissible for a local instant `l` iff the offset in
  force at the UTC instant `l - o` is `o`; no admissible offset means the
  local time is nonexistent, two admissible offsets mean it is ambiguous.
-/

/-- Weekday of an epoch day number, Monday = 0 (1970-01-01, day 0, is a
Thursday). -/
def weekday (d : Nat) : Nat := (d + 3) % 7

/-- `pandas.date_range(start, end, freq=CustomBusinessDay(holidays=hol))`
as used on line 88 of the source and inside the `TradingCalendar` base
constructor: the ascending list of days in the inclusive range `[s, e]`
that fall on the Monday–Friday weekmask and are not ad-hoc holidays.
An empty or fully excluded range yields `[]`. -/
def tradingDays (s e : Nat) (hol : List Nat) : List Nat :=
  (List.range' s (e + 1 - s)).filter (fun d => decide (weekday d < 5 ∧ d ∉ hol))

/-- The error pandas raises from `tz_localize` when the timezone data
reports a local wall-clock instant as nonexistent (spring-forward gap) or
ambiguous (fall-back overlap).  It identifies the offending local instant. -/
inductive LocError where
  | nonexistent (localMinute : Int)
  | ambiguous (localMinute : Int)
  deriving DecidableEq

/-- Timezone data: a base UTC offset (minutes) and an ascending list of
`(utcInstant, newOffset)` transitions, each meaning that from that UTC
instant on the zone's offset is `newOffset`. -/
structure TzData where
  baseOffset : Int
  transitions : List (Int × Int)
  deriving DecidableEq

/-- The UTC offset the timezone data puts in force at a UTC instant: the
offset of the last transition at or before it, or the base offset. -/
def offsetAt (tz : TzData) (utc : Int) : Int :=
  (tz.transitions.filter (fun p => decide (p.1 ≤ utc))).foldl (fun _ p => p.2) tz.baseOffset

/-- The distinct offsets occurring in the timezone data. -/
def TzData.offsets (tz : TzData) : List Int :=
  (tz.baseOffset :: tz.transitions.map Prod.snd).dedup

/-- The offsets under which a given local wall-clock instant is realizable:
`o` qualifies iff interpreting the local instant with offset `o` lands at a
UTC instant where the data indeed prescribes offset `o`. -/
def candidates (tz : TzData) (localMinute : Int) : List Int :=
  tz.offsets.filter (fun o => decide (offsetAt tz (localMinute - o) = o))

/-- `tz_localize` (default arguments) on a single local wall-clock instant:
a unique admissible offset converts to UTC, no admissible offset raises
`NonExistentTimeError`, several raise `AmbiguousTimeError`. -/
def localizeOne (tz : TzData) (localMinute : Int) : Except LocError Int :=
  match candidates tz localMinute with
  | [] => .error (.nonexistent localMinute)
  | [o] => .ok (localMinute - o)
  | _ => .error (.ambiguous localMinute)

/-- `pytz.timezone("Asia/Shanghai")` (the `tz` property, lines 111-113),
restricted to the era the calendar covers (`start_default` = 1990-12-19,
epoch day 7657, onwards): offset UTC+8h = 480 min, except the final DST
period of the zone, UTC+9h = 540 min between 1991-04-14 02:00 (+8) and
1991-09-15 02:00 (+9).  The zone has had no transition since. -/
def shanghaiTz : TzData :=
  { baseOffset := 480
    transitions := [(7773 * 1440 + 120 - 480, 540), (7927 * 1440 + 120 - 540, 480)] }

/-- The single UTC offset (minutes) of Asia/Shanghai on a given day, valid
for wall-clock times from 03:00 on: 540 during the 1991 DST period
(epoch days 7773 = 1991-04-14 through 7926 = 1991-09-14), else 480. -/
def shanghaiOffset (d : Nat) : Int := if 7773 ≤ d ∧ d ≤ 7926 then 540 else 480

/-- The UTC instant of wall-clock time `t` on day `d` in Asia/Shanghai. -/
def locAt (d : Nat) (t : Nat) : Int := (d : Int) * 1440 + t - shanghaiOffset d

/-- Localization of a list of days at a common wall-clock time, stopping at
the first day pandas would raise on (the elementwise core of
`days_at_time`, line 55). -/
def mapLocalize (tz : TzData) (t : Nat) : List Nat → Except LocError (List Int)
  | [] => .ok []
  | d :: ds =>
    match localizeOne tz ((d : Int) * 1440 + t), mapLocalize tz t ds with
    | .ok x, .ok xs => .ok (x :: xs)
    | .error err, _ => .error err
    | .ok _, .error err => .error err

/-- `days_at_time` (lines 17-55): an empty index is returned unchanged
(lines 44-45); otherwise each day is offset by `day_offset` days plus the
wall-clock time `t` and localized to UTC. -/
def days_at_time (days : List Nat) (t : Nat) (tz : TzData) (day_offset : Nat) :
    Except LocError (List Int) :=
  if days.length = 0 then .ok []
  else mapLocalize tz t (days.map (fun d => d + day_offset))

/-- `lunch_break_start = time(11, 30)` (line 59). -/
def lunch_break_start : Nat := 11 * 60 + 30

/-- `lunch_break_end = time(13, 1)` (line 60). -/
def lunch_break_end : Nat := 13 * 60 + 1

/-- `open_times = time(9, 31)` (lines 115-117). -/
def open_times : Nat := 9 * 60 + 31

/-- `close_times = time(15, 0)` (lines 119-121). -/
def close_times : Nat := 15 * 60

/-- The state the `zipline` `TradingCalendar.__init__` call on line 93
leaves behind, as far as this module observes it: the base day range and
the `_opens` / `_closes` series, each localized with the subclass's
`open_times` / `close_times` over the range the base constructor was given. -/
structure BaseCalendar where
  sessions : List Nat
  opens : List Int
  closes : List Int
  deriving DecidableEq

/-- `TradingCalendar.__init__(start, end)` (external base class, modelled
only in the fields the module reads): computes its own trading-day range
and localizes the subclass's open and close times over it. -/
def tradingCalendarInit (start end_ : Nat) (hol : List Nat) : Except LocError BaseCalendar :=
  match days_at_time (tradingDays start end_ hol) open_times shanghaiTz 0,
        days_at_time (tradingDays start end_ hol) close_times shanghaiTz 0 with
  | .ok os, .ok cs => .ok ⟨tradingDays start end_ hol, os, cs⟩
  | .error err, _ => .error err
  | _, .error err => .error err

/-- One row of `self.schedule` (lines 95-105), in column order
`market_open`, `market_close`, `lunch_break_start`, `lunch_break_end`,
indexed by its session day. -/
structure Row where
  session : Nat
  market_open : Int
  market_close : Int
  lunch_break_start : Int
  lunch_break_end : Int
  deriving DecidableEq

/-- Positional assembly of schedule rows from the index and the four
column arrays, as the `DataFrame` constructor pairs them. -/
def zipRows : List Nat → List Int → List Int → List Int → List Int → List Row
  | d :: ds, o :: os, c :: cs, ls :: lss, le :: les =>
      ⟨d, o, c, ls, le⟩ :: zipRows ds os cs lss les
  | _, _, _, _, _ => []

/-- The state of a successfully constructed `SHSZExchangeCalendar`:
`_all_days` (the schedule index, computed from the constructor arguments),
the base class's `_opens` / `_closes` (computed over the default range),
`_lunch_break_starts` / `_lunch_break_ends` (computed over the argument
range), and the assembled schedule rows. -/
structure SHSZCal where
  allDays : List Nat
  baseOpens : List Int
  baseCloses : List Int
  lunchBreakStarts : List Int
  lunchBreakEnds : List Int
  schedule : List Row
  deriving DecidableEq

/-- Construction failure: an error propagated from `tz_localize`, or the
`ValueError` pandas raises when a column array's length differs from the
index length (which is also where numpy fails if the base arrays and the
lunch arrays have different lengths). -/
inductive BuildError where
  | loc (e : LocError)
  | lengthMismatch
  deriving DecidableEq

/-- `SHSZExchangeCalendar.__init__(start, end)` (lines 85-105).  In source
order: `_all_days` from the *arguments* (line 88), the two lunch columns
over `_all_days` (lines 90-91), the base constructor called with the
module-level *defaults* (line 93), then the schedule `DataFrame` pairing
the argument index with the base open/close arrays (lines 95-105), which
requires every column length to equal the index length. -/
def SHSZ_init (start end_ : Nat) (hol : List Nat) (startDefault endDefault : Nat) :
    Except BuildError SHSZCal :=
  match days_at_time (tradingDays start end_ hol) lunch_break_start shanghaiTz 0 with
  | .error err => .error (.loc err)
  | .ok lbs =>
    match days_at_time (tradingDays start end_ hol) lunch_break_end shanghaiTz 0 with
    | .error err => .error (.loc err)
    | .ok lbe =>
      match tradingCalendarInit startDefault endDefault hol with
      | .error err => .error (.loc err)
      | .ok base =>
        if base.opens.length = (tradingDays start end_ hol).length ∧
            base.closes.length = (tradingDays start end_ hol).length then
          .ok ⟨tradingDays start end_ hol, base.opens, base.closes, lbs, lbe,
               zipRows (tradingDays start end_ hol) base.opens base.closes lbs lbe⟩
        else
          .error .lengthMismatch

/-- `[a, a+1, ..., b-1]`: `np.arange(x, y, NANOS_IN_MINUTE)` on
whole-minute endpoints, in minutes. -/
def intRange (a b : Int) : List Int :=
  (List.range (b - a).toNat).map (fun (i : Nat) => a + (i : Int))

/-- The minute block `all_minutes` emits for one schedule position
(lines 176-188): the inclusive span `open .. lunch_break_start` followed by
the inclusive span `lunch_break_end .. market_close`, each stepped by one
minute (`np.arange(x, y + NANOS_IN_MINUTE, NANOS_IN_MINUTE)`). -/
def minutesForRow (r : Row) : List Int :=
  intRange r.market_open (r.lunch_break_start + 1) ++
    intRange r.lunch_break_end (r.market_close + 1)

/-- The positional single-pass fill of `all_minutes` over the four column
arrays (lines 141-191).  Faithful to the preallocated buffer fill whenever
every position has `open ≤ lunch_break_start` and
`lunch_break_end ≤ market_close` (then every per-day size is positive, the
two slice assignments fill exactly their slices, and the concatenation of
the blocks is the buffer's final content). -/
def minuteSpans : List Int → List Int → List Int → List Int → List Int
  | o :: os, c :: cs, ls :: lss, le :: les =>
      (intRange o (ls + 1) ++ intRange le (c + 1)) ++ minuteSpans os cs lss les
  | _, _, _, _ => []

/-- `all_minutes` (lines 135-191), reading `self._opens`, `self._closes`,
`self._lunch_break_starts`, `self._lunch_break_ends`. -/
def all_minutes (c : SHSZCal) : List Int :=
  minuteSpans c.baseOpens c.baseCloses c.lunchBreakStarts c.lunchBreakEnds

/-- `_minutes_per_session` (lines 127-133): per schedule row,
`(lunch_break_start - market_open) + (market_close - lunch_break_end) + 2`,
the subtractions taken at minute resolution (exact here, see the header). -/
def minutes_per_session (c : SHSZCal) : List Int :=
  c.schedule.map
    (fun r => (r.lunch_break_start - r.market_open) + (r.market_close - r.lunch_break_end) + 2)

/-- Membership of an instant in one session's trading windows:
`[open, breakStart] ∪ [breakEnd, close]`, endpoints inclusive. -/
abbrev inWindow (r : Row) (x : Int) : Prop :=
  (r.market_open ≤ x ∧ x ≤ r.lunch_break_start) ∨
    (r.lunch_break_end ≤ x ∧ x ≤ r.market_close)

/-- The value a successful construction produces (proved below): the
argument-range day list indexed against lunch columns localized on the
argument days and open/close columns localized on the default-range days. -/
def mkCal (s e sd ed : Nat) (hol : List Nat) : SHSZCal :=
  let days := tradingDays s e hol
  let bdays := tradingDays sd ed hol
  ⟨days,
   bdays.map (fun d => locAt d open_times),
   bdays.map (fun d => locAt d close_times),
   days.map (fun d => locAt d lunch_break_start),
   days.map (fun d => locAt d lunch_break_end),
   zipRows days (bdays.map (fun d => locAt d open_times))
     (bdays.map (fun d => locAt d close_times))
     (days.map (fun d => locAt d lunch_break_start))
     (days.map (fun d => locAt d lunch_break_end))⟩

/-- The schedule row of a day in an aligned construction. -/
def mkRow (d : Nat) : Row :=
  ⟨d, locAt d open_times, locAt d close_times,
    locAt d lunch_break_start, locAt d lunch_break_end⟩

/-! ## The Asia/Shanghai localizer on session times -/

theorem offsetAt_shanghai (u : Int) :
    offsetAt shanghaiTz u =
      if 11414460 ≤ u then 480 else if 11192760 ≤ u then 540 else 480 := by
  show offsetAt ⟨480, [(11192760, 540), (11414460, 480)]⟩ u = _
  unfold offsetAt
  by_cases h1 : (11192760 : Int) ≤ u <;> by_cases h2 : (11414460 : Int) ≤ u <;>
    simp [h1, h2, List.filter_cons]

theorem shanghai_offsets : shanghaiTz.offsets = [540, 480] := by decide

/-- For wall-clock times from 03:00 (inclusive) to midnight, Asia/Shanghai
localization never hits a transition gap or overlap and applies the single
per-day offset `shanghaiOffset`. -/
theorem localizeOne_shanghai (d t : Nat) (h1 : 180 ≤ t) (h2 : t < 1440) :
    localizeOne shanghaiTz ((d : Int) * 1440 + t) = .ok (locAt d t) := by
  have hloc : locAt d t = (d : Int) * 1440 + t - shanghaiOffset d := rfl
  unfold localizeOne candidates
  rw [shanghai_offsets]
  rcases Nat.lt_or_ge d 7773 with hd | hd
  · have e1 : offsetAt shanghaiTz ((d : Int) * 1440 + t - 540) = 480 := by
      rw [offsetAt_shanghai, if_neg (by omega), if_neg (by omega)]
    have e2 : offsetAt shanghaiTz ((d : Int) * 1440 + t - 480) = 480 := by
      rw [offsetAt_shanghai, if_neg (by omega), if_neg (by omega)]
    have hoff : shanghaiOffset d = 480 := by unfold shanghaiOffset; rw [if_neg (by omega)]
    simp [List.filter_cons, e1, e2, hloc, hoff]
  rcases Nat.lt_or_ge d 7927 with hd' | hd'
  · have e1 : offsetAt shanghaiTz ((d : Int) * 1440 + t - 540) = 540 := by
      rw [offsetAt_shanghai, if_neg (by omega), if_pos (by omega)]
    have e2 : offsetAt shanghaiTz ((d : Int) * 1440 + t - 480) = 540 := by
      rw [offsetAt_shanghai, if_neg (by omega), if_pos (by omega)]
    have hoff : shanghaiOffset d = 540 := by unfold shanghaiOffset; rw [if_pos (by omega)]
    simp [List.filter_cons, e1, e2, hloc, hoff]
  · have e1 : offsetAt shanghaiTz ((d : Int) * 1440 + t - 540) = 480 := by
      rw [offsetAt_shanghai, if_pos (by omega)]
    have e2 : offsetAt shanghaiTz ((d : Int) * 1440 + t - 480) = 480 := by
      rw [offsetAt_shanghai, if_pos (by omega)]
    have hoff : shanghaiOffset d = 480 := by unfold shanghaiOffset; rw [if_neg (by omega)]
    simp [List.filter_cons, e1, e2, hloc, hoff]

/-! ## Structure of the construction -/

theorem mapLocalize_shanghai (t : Nat) (h1 : 180 ≤ t) (h2 : t < 1440) (days : List Nat) :
    mapLocalize shanghaiTz t days = .ok (days.map (fun d => locAt d t)) := by
  induction days with
  | nil => rfl
  | cons d ds ih => simp [mapLocalize, localizeOne_shanghai d t h1 h2, ih]

theorem days_at_time_shanghai (days : List Nat) (t : Nat) (h1 : 180 ≤ t) (h2 : t < 1440) :
    days_at_time days t shanghaiTz 0 = .ok (days.map (fun d => locAt d t)) := by
  cases days with
  | nil => rfl
  | cons d ds =>
    have hmap : (d :: ds).map (fun x => x + 0) = d :: ds := by simp
    unfold days_at_time
    rw [if_neg (by simp), hmap, mapLocalize_shanghai t h1 h2]

theorem tradingCalendarInit_eq (sd ed : Nat) (hol : List Nat) :
    tradingCalendarInit sd ed hol =
      .ok ⟨tradingDays sd ed hol,
           (tradingDays sd ed hol).map (fun d => locAt d open_times),
           (tradingDays sd ed hol).map (fun d => locAt d close_times)⟩ := by
  unfold tradingCalendarInit
  rw [days_at_time_shanghai _ _ (by decide) (by decide),
    days_at_time_shanghai _ _ (by decide) (by decide)]

theorem SHSZ_init_eq (s e sd ed : Nat) (hol : List Nat) :
    SHSZ_init s e hol sd ed =
      if (tradingDays sd ed hol).length = (tradingDays s e hol).length then
        .ok (mkCal s e sd ed hol)
      else .error .lengthMismatch := by
  unfold SHSZ_init
  rw [days_at_time_shanghai _ _ (by decide) (by decide),
    days_at_time_shanghai _ _ (by decide) (by decide), tradingCalendarInit_eq]
  simp only [List.length_map]
  by_cases h : (tradingDays sd ed hol).length = (tradingDays s e hol).length
  · rw [if_pos ⟨h, h⟩, if_pos h]; rfl
  · rw [if_neg (by tauto), if_neg h]

theorem SHSZ_init_aligned (s e : Nat) (hol : List Nat) :
    SHSZ_init s e hol s e = .ok (mkCal s e s e hol) := by
  rw [SHSZ_init_eq, if_pos rfl]

theorem SHSZ_init_ok_eq (s e sd ed : Nat) (hol : List Nat) (c : SHSZCal)
    (h : SHSZ_init s e hol sd ed = .ok c) : c = mkCal s e sd ed hol := by
  rw [SHSZ_init_eq] at h
  by_cases hc : (tradingDays sd ed hol).length = (tradingDays s e hol).length
  · rw [if_pos hc] at h; exact (Except.ok.inj h).symm
  · rw [if_neg hc] at h; exact absurd h (by simp)

theorem zipRows_map (f1 f2 f3 f4 : Nat → Int) (ds : List Nat) :
    zipRows ds (ds.map f1) (ds.map f2) (ds.map f3) (ds.map f4) =
      ds.map (fun d => ⟨d, f1 d, f2 d, f3 d, f4 d⟩) := by
  induction ds with
  | nil => rfl
  | cons d ds ih => simp [zipRows, ih]

theorem mkCal_allDays (s e sd ed : Nat) (hol : List Nat) :
    (mkCal s e sd ed hol).allDays = tradingDays s e hol := rfl

theorem mkCal_aligned_schedule (s e : Nat) (hol : List Nat) :
    (mkCal s e s e hol).schedule = (tradingDays s e hol).map mkRow := by
  show zipRows (tradingDays s e hol) ((tradingDays s e hol).map _)
      ((tradingDays s e hol).map _) ((tradingDays s e hol).map _)
      ((tradingDays s e hol).map _) = _
  rw [zipRows_map]; rfl

/-! ## Trading-day lists -/

theorem tradingDays_sorted (s e : Nat) (hol : List Nat) :
    (tradingDays s e hol).Sorted (· < ·) :=
  List.Pairwise.sublist (List.filter_sublist _) (List.pairwise_lt_range' s (e + 1 - s))

theorem tradingDays_nodup (s e : Nat) (hol : List Nat) :
    (tradingDays s e hol).Nodup :=
  (tradingDays_sorted s e hol).imp Nat.ne_of_lt

theorem mem_tradingDays (s e : Nat) (hol : List Nat) (d : Nat) :
    d ∈ tradingDays s e hol ↔ s ≤ d ∧ d ≤ e ∧ weekday d < 5 ∧ d ∉ hol := by
  unfold tradingDays
  rw [List.mem_filter, List.mem_range', decide_eq_true_eq]
  constructor
  · rintro ⟨⟨i, hi, rfl⟩, hw, hh⟩
    exact ⟨by omega, by omega, hw, hh⟩
  · rintro ⟨h1, h2, hw, hh⟩
    exact ⟨⟨d - s, by omega, by omega⟩, hw, hh⟩

/-! ## Minute ranges and the localized boundaries -/

theorem length_intRange (a b : Int) : (intRange a b).length = (b - a).toNat := by
  unfold intRange
  rw [List.length_map, List.length_range]

theorem mem_intRange (a b x : Int) : x ∈ intRange a b ↔ a ≤ x ∧ x < b := by
  unfold intRange
  simp only [List.mem_map, List.mem_range]
  constructor
  · rintro ⟨i, hi, rfl⟩
    omega
  · rintro ⟨h1, h2⟩
    exact ⟨(x - a).toNat, by omega, by omega⟩

theorem intRange_sorted (a b : Int) : (intRange a b).Sorted (· < ·) := by
  unfold intRange
  refine List.Pairwise.map _ (fun i j (h : i < j) => ?_) (List.pairwise_lt_range _)
  show a + (i : Int) < a + (j : Int)
  omega

theorem locAt_diffs (d : Nat) :
    locAt d lunch_break_start - locAt d open_times = 119 ∧
    locAt d lunch_break_end - locAt d lunch_break_start = 91 ∧
    locAt d close_times - locAt d lunch_break_end = 119 ∧
    locAt d close_times - locAt d open_times = 329 := by
  unfold locAt open_times close_times lunch_break_start lunch_break_end
  omega

theorem shanghaiOffset_cases (d : Nat) : shanghaiOffset d = 480 ∨ shanghaiOffset d = 540 := by
  unfold shanghaiOffset
  split
  · right; rfl
  · left; rfl

theorem locAt_bounds (d t : Nat) :
    (d : Int) * 1440 + t - 540 ≤ locAt d t ∧ locAt d t ≤ (d : Int) * 1440 + t - 480 := by
  unfold locAt
  rcases shanghaiOffset_cases d with h | h <;> rw [h] <;> omega

theorem mem_minutesForRow (r : Row) (x : Int) :
    x ∈ minutesForRow r ↔ inWindow r x := by
  unfold minutesForRow
  rw [List.mem_append, mem_intRange, mem_intRange]
  unfold inWindow
  omega

theorem inWindow_mkRow_bounds (d : Nat) (x : Int) (h : inWindow (mkRow d) x) :
    (d : Int) * 1440 + 31 ≤ x ∧ x ≤ (d : Int) * 1440 + 420 := by
  have h1 := locAt_bounds d open_times
  have h2 := locAt_bounds d close_times
  have h3 := locAt_diffs d
  have hv1 : open_times = 571 := rfl
  have hv2 : close_times = 900 := rfl
  unfold inWindow mkRow at h
  simp only at h
  omega

theorem minutesForRow_mkRow_sorted (d : Nat) : (minutesForRow (mkRow d)).Sorted (· < ·) := by
  have h3 := locAt_diffs d
  unfold minutesForRow
  refine List.pairwise_append.2 ⟨intRange_sorted _ _, intRange_sorted _ _, ?_⟩
  intro x hx y hy
  rw [mem_intRange] at hx hy
  simp only [mkRow] at hx hy ⊢
  omega

theorem length_minutesForRow_mkRow (d : Nat) : (minutesForRow (mkRow d)).length = 240 := by
  have h3 := locAt_diffs d
  show (intRange (locAt d open_times) (locAt d lunch_break_start + 1) ++
    intRange (locAt d lunch_break_end) (locAt d close_times + 1)).length = 240
  rw [List.length_append, length_intRange, length_intRange]
  omega

theorem minuteSpans_map (f1 f2 f3 f4 : Nat → Int) (ds : List Nat) :
    minuteSpans (ds.map f1) (ds.map f2) (ds.map f3) (ds.map f4) =
      (ds.map (fun d => intRange (f1 d) (f3 d + 1) ++ intRange (f4 d) (f2 d + 1))).flatten := by
  induction ds with
  | nil => rfl
  | cons d ds ih => simp [minuteSpans, ih]

theorem all_minutes_aligned (s e : Nat) (hol : List Nat) :
    all_minutes (mkCal s e s e hol) =
      ((tradingDays s e hol).map (fun d => minutesForRow (mkRow d))).flatten := by
  show minuteSpans ((tradingDays s e hol).map _) ((tradingDays s e hol).map _)
      ((tradingDays s e hol).map _) ((tradingDays s e hol).map _) = _
  rw [minuteSpans_map]
  rfl

theorem all_minutes_aligned_sorted (s e : Nat) (hol : List Nat) :
    (all_minutes (mkCal s e s e hol)).Sorted (· < ·) := by
  rw [all_minutes_aligned]
  refine List.pairwise_flatten.2 ⟨?_, ?_⟩
  · intro l hl
    rw [List.mem_map] at hl
    obtain ⟨d, _, rfl⟩ := hl
    exact minutesForRow_mkRow_sorted d
  · refine List.Pairwise.map _ ?_ (tradingDays_sorted s e hol)
    intro d1 d2 hlt x hx y hy
    rw [mem_minutesForRow] at hx hy
    have b1 := inWindow_mkRow_bounds d1 x hx
    have b2 := inWindow_mkRow_bounds d2 y hy
    have hc : (d1 : Int) < (d2 : Int) := by exact_mod_cast hlt
    omega

theorem all_minutes_aligned_nodup (s e : Nat) (hol : List Nat) :
    (all_minutes (mkCal s e s e hol)).Nodup :=
  (all_minutes_aligned_sorted s e hol).imp (fun h => Int.ne_of_lt h)

theorem sum_map_const_int (ds : List Nat) (z : Int) :
    (ds.map (fun _ => z)).sum = (ds.length : Int) * z := by
  induction ds with
  | nil => simp
  | cons d ds ih => simp [ih]; ring

theorem all_minutes_aligned_length (s e : Nat) (hol : List Nat) :
    ((all_minutes (mkCal s e s e hol)).length : Int) =
      ((mkCal s e s e hol).schedule.map
        (fun r => (r.lunch_break_start - r.market_open + 1) +
          (r.market_close - r.lunch_break_end + 1))).sum := by
  rw [all_minutes_aligned, mkCal_aligned_schedule, List.length_flatten, List.map_map,
    List.map_map]
  simp only [Function.comp_def]
  rw [List.map_congr_left (g := fun _ => (240 : Nat))
      (fun d _ => length_minutesForRow_mkRow d),
    List.map_congr_left (l := tradingDays s e hol) (g := fun _ => (240 : Int))
      (fun d _ => by
        have h3 := locAt_diffs d
        show (locAt d lunch_break_start - locAt d open_times + 1) +
          (locAt d close_times - locAt d lunch_break_end + 1) = 240
        omega)]
  rw [sum_map_const_int]
  have hn : ((tradingDays s e hol).map (fun _ => (240 : Nat))).sum =
      (tradingDays s e hol).length * 240 := by
    induction tradingDays s e hol with
    | nil => rfl
    | cons d ds ih =>
      simp only [List.map_cons, List.sum_cons, List.length_cons, ih]
      ring
  rw [hn]
  push_cast
  ring

/-! ## Membership structure of the aligned minute grid -/

theorem mem_all_minutes_aligned (s e : Nat) (hol : List Nat) (x : Int) :
    x ∈ all_minutes (mkCal s e s e hol) ↔
      ∃ r ∈ (mkCal s e s e hol).schedule, inWindow r x := by
  rw [all_minutes_aligned, mkCal_aligned_schedule, List.mem_flatten]
  constructor
  · rintro ⟨l, hl, hx⟩
    rw [List.mem_map] at hl
    obtain ⟨d, hd, rfl⟩ := hl
    exact ⟨mkRow d, List.mem_map_of_mem _ hd, (mem_minutesForRow _ _).1 hx⟩
  · rintro ⟨r, hr, hx⟩
    rw [List.mem_map] at hr
    obtain ⟨d, hd, rfl⟩ := hr
    exact ⟨minutesForRow (mkRow d), List.mem_map_of_mem _ hd, (mem_minutesForRow _ _).2 hx⟩

theorem inWindow_unique_aligned (s e : Nat) (hol : List Nat) (x : Int) (r1 r2 : Row)
    (h1 : r1 ∈ (mkCal s e s e hol).schedule) (h2 : r2 ∈ (mkCal s e s e hol).schedule)
    (hw1 : inWindow r1 x) (hw2 : inWindow r2 x) : r1 = r2 := by
  rw [mkCal_aligned_schedule, List.mem_map] at h1 h2
  obtain ⟨d1, _, rfl⟩ := h1
  obtain ⟨d2, _, rfl⟩ := h2
  have b1 := inWindow_mkRow_bounds d1 x hw1
  have b2 := inWindow_mkRow_bounds d2 x hw2
  have hdd : d1 = d2 := by omega
  rw [hdd]

theorem no_break_minutes_aligned (s e : Nat) (hol : List Nat) (x : Int) (r : Row)
    (hx : x ∈ all_minutes (mkCal s e s e hol)) (hr : r ∈ (mkCal s e s e hol).schedule) :
    ¬(r.lunch_break_start < x ∧ x < r.lunch_break_end) := by
  rintro ⟨hb1, hb2⟩
  rw [mem_all_minutes_aligned] at hx
  obtain ⟨r', hr', hw'⟩ := hx
  rw [mkCal_aligned_schedule, List.mem_map] at hr hr'
  obtain ⟨d, _, rfl⟩ := hr
  obtain ⟨d', _, rfl⟩ := hr'
  have b' := inWindow_mkRow_bounds d' x hw'
  have hb := locAt_bounds d lunch_break_start
  have he := locAt_bounds d lunch_break_end
  have hv1 : lunch_break_start = 690 := rfl
  have hv2 : lunch_break_end = 781 := rfl
  simp only [mkRow] at hb1 hb2
  have hdd : d' = d := by omega
  subst hdd
  have h3 := locAt_diffs d'
  unfold inWindow mkRow at hw'
  simp only at hw'
  omega

/-! ## Error propagation through `days_at_time` -/

theorem mapLocalize_error_of_mem (tz : TzData) (t : Nat) (days : List Nat) (d : Nat)
    (e0 : LocError) (hd : d ∈ days)
    (he : localizeOne tz ((d : Int) * 1440 + t) = .error e0) :
    ∃ d' ∈ days, ∃ err, mapLocalize tz t days = .error err ∧
      localizeOne tz ((d' : Int) * 1440 + t) = .error err := by
  induction days with
  | nil => cases hd
  | cons a as ih =>
    cases ha : localizeOne tz ((a : Int) * 1440 + t) with
    | error ea =>
      refine ⟨a, List.mem_cons_self _ _, ea, ?_, ha⟩
      simp [mapLocalize, ha]
    | ok xa =>
      have hd' : d ∈ as := by
        rcases List.mem_cons.1 hd with rfl | hmem
        · rw [ha] at he; cases he
        · exact hmem
      obtain ⟨d', hd'', err, herr, he'⟩ := ih hd'
      refine ⟨d', List.mem_cons_of_mem _ hd'', err, ?_, he'⟩
      simp [mapLocalize, ha, herr]

theorem days_at_time_error_of_mem (days : List Nat) (t : Nat) (tz : TzData) (d : Nat)
    (e0 : LocError) (hd : d ∈ days)
    (he : localizeOne tz ((d : Int) * 1440 + t) = .error e0) :
    ∃ d' ∈ days, ∃ err, days_at_time days t tz 0 = .error err ∧
      localizeOne tz ((d' : Int) * 1440 + t) = .error err := by
  have hne : days.length ≠ 0 := by
    cases days with
    | nil => cases hd
    | cons a as => simp
  have hmap : days.map (fun x => x + 0) = days := by simp
  unfold days_at_time
  rw [if_neg hne, hmap]
  exact mapLocalize_error_of_mem tz t days d e0 hd he

/-! ## The claims -/

/-- C1: for every successfully constructed calendar, the session sequence
(the schedule index `_all_days`) is strictly ascending, has no duplicates,
and contains exactly the dates of the inclusive constructor range that are
neither weekend days nor holidays. -/
theorem C1_sessions (s e sd ed : Nat) (hol : List Nat) (c : SHSZCal)
    (h : SHSZ_init s e hol sd ed = .ok c) :
    c.allDays.Sorted (· < ·) ∧ c.allDays.Nodup ∧
      ∀ d, d ∈ c.allDays ↔ s ≤ d ∧ d ≤ e ∧ weekday d < 5 ∧ d ∉ hol := by
  rw [SHSZ_init_ok_eq s e sd ed hol c h, mkCal_allDays]
  exact ⟨tradingDays_sorted s e hol, tradingDays_nodup s e hol, mem_tradingDays s e hol⟩

/-- Witness for C1: the construction over the week of 2016-03-14
(epoch days 16874-16880) with 2016-03-15 as a holiday. -/
theorem C1_sessions_witness :
    (mkCal 16874 16880 16874 16880 [16875]).allDays.Sorted (· < ·) ∧
    (mkCal 16874 16880 16874 16880 [16875]).allDays.Nodup ∧
    (16876 ∈ (mkCal 16874 16880 16874 16880 [16875]).allDays ↔
      16874 ≤ 16876 ∧ 16876 ≤ 16880 ∧ weekday 16876 < 5 ∧ 16876 ∉ [16875]) := by
  have h := C1_sessions 16874 16880 16874 16880 [16875]
    (mkCal 16874 16880 16874 16880 [16875]) rfl
  exact ⟨h.1, h.2.1, (h.2.2) 16876⟩

/-- C2, counterexample: a calendar constructed with the one-day range
2016-03-15 (epoch day 16875) while the module defaults cover the one-day
range 2016-03-14 (epoch day 16874) is constructed without error, but its
single row carries the market open of 2016-03-14 01:31 UTC
(24298651 = 16874*1440+91), not the localization of 09:31 on its own
session date 2016-03-15 (which is 24300091 = 16875*1440+91): the open and
close columns are inherited positionally from the default range. -/
theorem C2_counterexample :
    SHSZ_init 16875 16875 [] 16874 16874 = .ok (mkCal 16875 16875 16874 16874 []) ∧
    (mkCal 16875 16875 16874 16874 []).schedule =
      [⟨16875, 24298651, 24298980, 24300210, 24300301⟩] ∧
    localizeOne shanghaiTz ((16875 : Int) * 1440 + open_times) = .ok 24300091 ∧
    (24298651 : Int) ≠ 24300091 := by
  refine ⟨rfl, rfl, rfl, by decide⟩

/-- C2, amended: when the constructor arguments coincide with the base
default range, every trading day has exactly one schedule row (the row
sessions are exactly the sorted, duplicate-free session list) and all four
boundary instants of the row are the localizations of the configured
wall-clock times on the session date itself. -/
theorem C2_amended (s e : Nat) (hol : List Nat) (c : SHSZCal)
    (h : SHSZ_init s e hol s e = .ok c) :
    c.schedule.map Row.session = c.allDays ∧
      (c.schedule.map Row.session).Sorted (· < ·) ∧
      (c.schedule.map Row.session).Nodup ∧
      ∀ r ∈ c.schedule,
        localizeOne shanghaiTz ((r.session : Int) * 1440 + open_times) = .ok r.market_open ∧
        localizeOne shanghaiTz ((r.session : Int) * 1440 + close_times) = .ok r.market_close ∧
        localizeOne shanghaiTz ((r.session : Int) * 1440 + lunch_break_start) =
          .ok r.lunch_break_start ∧
        localizeOne shanghaiTz ((r.session : Int) * 1440 + lunch_break_end) =
          .ok r.lunch_break_end := by
  rw [SHSZ_init_ok_eq _ _ _ _ _ _ h, mkCal_aligned_schedule, mkCal_allDays]
  have hsess : ((tradingDays s e hol).map mkRow).map Row.session = tradingDays s e hol := by
    rw [List.map_map]
    rw [show (Row.session ∘ mkRow) = id from rfl]
    exact List.map_id _
  refine ⟨hsess, ?_, ?_, ?_⟩
  · rw [hsess]; exact tradingDays_sorted s e hol
  · rw [hsess]; exact tradingDays_nodup s e hol
  · intro r hr
    rw [List.mem_map] at hr
    obtain ⟨d, _, rfl⟩ := hr
    exact ⟨localizeOne_shanghai d open_times (by decide) (by decide),
      localizeOne_shanghai d close_times (by decide) (by decide),
      localizeOne_shanghai d lunch_break_start (by decide) (by decide),
      localizeOne_shanghai d lunch_break_end (by decide) (by decide)⟩

/-- Witness for the amended C2: the aligned construction over
2016-04-04/05 (epoch days 16895-16896). -/
theorem C2_amended_witness :
    (mkCal 16895 16896 16895 16896 []).schedule.map Row.session =
      (mkCal 16895 16896 16895 16896 []).allDays ∧
    localizeOne shanghaiTz (((mkRow 16895).session : Int) * 1440 + open_times) =
      .ok (mkRow 16895).market_open := by
  have h := C2_amended 16895 16896 [] (mkCal 16895 16896 16895 16896 []) rfl
  exact ⟨h.1, (h.2.2.2 (mkRow 16895) (by decide)).1⟩

/-- C3, counterexample: the constructor performs no ordering validation.
With argument range 2016-03-16 (epoch day 16876) and default range
2016-03-14 (epoch day 16874), construction succeeds, yet the single row
violates the invariant: its lunch-break end (24301741) is later than its
market close (24298980). -/
theorem C3_counterexample :
    SHSZ_init 16876 16876 [] 16874 16874 = .ok (mkCal 16876 16876 16874 16874 []) ∧
    (mkCal 16876 16876 16874 16874 []).schedule =
      [⟨16876, 24298651, 24298980, 24301650, 24301741⟩] ∧
    ¬((24301741 : Int) < 24298980) := by
  refine ⟨rfl, rfl, by decide⟩

/-- C3, amended: construction never validates the boundary ordering (a row
with non-increasing boundaries can be constructed, see the counterexample);
however, when the constructor arguments coincide with the base default
range, every constructed row does satisfy
`open < breakStart < breakEnd < close`. -/
theorem C3_amended (s e : Nat) (hol : List Nat) (c : SHSZCal)
    (h : SHSZ_init s e hol s e = .ok c) :
    ∀ r ∈ c.schedule,
      r.market_open < r.lunch_break_start ∧
        r.lunch_break_start < r.lunch_break_end ∧
        r.lunch_break_end < r.market_close := by
  rw [SHSZ_init_ok_eq _ _ _ _ _ _ h, mkCal_aligned_schedule]
  intro r hr
  rw [List.mem_map] at hr
  obtain ⟨d, _, rfl⟩ := hr
  have h3 := locAt_diffs d
  simp only [mkRow]
  omega

/-- Witness for the amended C3 at the aligned construction over
2016-03-21/22 (epoch days 16881-16882). -/
theorem C3_amended_witness :
    (mkRow 16881).market_open < (mkRow 16881).lunch_break_start ∧
      (mkRow 16881).lunch_break_start < (mkRow 16881).lunch_break_end ∧
      (mkRow 16881).lunch_break_end < (mkRow 16881).market_close := by
  exact C3_amended 16881 16882 [] (mkCal 16881 16882 16881 16882 []) rfl
    (mkRow 16881) (by decide)

/-- C4: for every calendar constructed over the default range, the minute
grid is strictly ascending and duplicate-free, and its length is the sum
over the schedule rows of
`(breakStart - open in minutes + 1) + (close - breakEnd in minutes + 1)`. -/
theorem C4_all_minutes (s e : Nat) (hol : List Nat) (c : SHSZCal)
    (h : SHSZ_init s e hol s e = .ok c) :
    (all_minutes c).Sorted (· < ·) ∧ (all_minutes c).Nodup ∧
      ((all_minutes c).length : Int) =
        (c.schedule.map (fun r => (r.lunch_break_start - r.market_open + 1) +
          (r.market_close - r.lunch_break_end + 1))).sum := by
  rw [SHSZ_init_ok_eq _ _ _ _ _ _ h]
  exact ⟨all_minutes_aligned_sorted s e hol, all_minutes_aligned_nodup s e hol,
    all_minutes_aligned_length s e hol⟩

/-- Witness for C4 at the aligned construction over 2016-03-14/15. -/
theorem C4_all_minutes_witness :
    (all_minutes (mkCal 16874 16875 16874 16875 [])).Sorted (· < ·) ∧
    (all_minutes (mkCal 16874 16875 16874 16875 [])).Nodup ∧
    ((all_minutes (mkCal 16874 16875 16874 16875 [])).length : Int) =
      ((mkCal 16874 16875 16874 16875 []).schedule.map
        (fun r => (r.lunch_break_start - r.market_open + 1) +
          (r.market_close - r.lunch_break_end + 1))).sum := by
  exact C4_all_minutes 16874 16875 [] (mkCal 16874 16875 16874 16875 []) rfl

/-- C5: in every calendar constructed over the default range, an instant is
in the minute grid iff it lies in the inclusive before-break or after-break
window of some schedule row; the row is unique (windows of distinct rows
are disjoint); and no grid element lies strictly inside the lunch break of
any row. -/
theorem C5_grid_membership (s e : Nat) (hol : List Nat) (c : SHSZCal)
    (h : SHSZ_init s e hol s e = .ok c) :
    (∀ x, x ∈ all_minutes c ↔ ∃ r ∈ c.schedule, inWindow r x) ∧
      (∀ x r1 r2, r1 ∈ c.schedule → r2 ∈ c.schedule →
        inWindow r1 x → inWindow r2 x → r1 = r2) ∧
      (∀ x r, x ∈ all_minutes c → r ∈ c.schedule →
        ¬(r.lunch_break_start < x ∧ x < r.lunch_break_end)) := by
  rw [SHSZ_init_ok_eq _ _ _ _ _ _ h]
  exact ⟨fun x => mem_all_minutes_aligned s e hol x,
    fun x r1 r2 h1 h2 hw1 hw2 => inWindow_unique_aligned s e hol x r1 r2 h1 h2 hw1 hw2,
    fun x r hx hr => no_break_minutes_aligned s e hol x r hx hr⟩

/-- Witness for C5 at the aligned one-day construction over 2016-03-28
(epoch day 16888), instantiated at the market-open instant of that day. -/
theorem C5_grid_membership_witness :
    (locAt 16888 open_times ∈ all_minutes (mkCal 16888 16888 16888 16888 []) ↔
      ∃ r ∈ (mkCal 16888 16888 16888 16888 []).schedule,
        inWindow r (locAt 16888 open_times)) ∧
    mkRow 16888 = mkRow 16888 ∧
    ¬((mkRow 16888).lunch_break_start < locAt 16888 open_times ∧
      locAt 16888 open_times < (mkRow 16888).lunch_break_end) := by
  have h := C5_grid_membership 16888 16888 [] (mkCal 16888 16888 16888 16888 []) rfl
  refine ⟨h.1 (locAt 16888 open_times), ?_, ?_⟩
  · exact h.2.1 (locAt 16888 open_times) (mkRow 16888) (mkRow 16888)
      (by decide) (by decide) (by decide) (by decide)
  · exact h.2.2 (locAt 16888 open_times) (mkRow 16888) (by decide) (by decide)

/-- C6, counterexample: the range 2016-01-01..2016-01-01 (epoch day 16801,
a Friday listed as a holiday) contains no trading day, but constructing
with it (against a default range holding one trading day, 2016-03-14) does
not return empty sequences — it fails with the length-mismatch error the
schedule assembly raises. -/
theorem C6_counterexample :
    tradingDays 16801 16801 [16801] = [] ∧
    SHSZ_init 16801 16801 [16801] 16874 16874 = .error .lengthMismatch :=
  ⟨rfl, rfl⟩

/-- C6, amended: when the argument range contains no trading day while the
base default range contains at least one (always the case for the real
module defaults, 1990-12-19 through today plus 365 days), construction
raises the length-mismatch error; empty `Sessions()` and `AllMinutes()`
are never returned for such a range. -/
theorem C6_amended (s e sd ed : Nat) (hol : List Nat)
    (h1 : tradingDays s e hol = []) (h2 : tradingDays sd ed hol ≠ []) :
    SHSZ_init s e hol sd ed = .error .lengthMismatch := by
  have hne : ¬((tradingDays sd ed hol).length = ([] : List Nat).length) := by
    simp only [List.length_nil]
    intro hc
    exact h2 (List.length_eq_zero.1 hc)
  rw [SHSZ_init_eq, h1, if_neg hne]

/-- Witness for the amended C6: the weekend range 2016-03-19/20 against the
one-trading-day default range 2016-03-14. -/
theorem C6_amended_witness :
    SHSZ_init 16879 16880 [] 16874 16874 = .error .lengthMismatch :=
  C6_amended 16879 16880 16874 16874 [] rfl (by decide)

/-- C7: if the timezone data reports the computed local instant of any day
of the index as nonexistent or ambiguous, `days_at_time` fails with the
error pandas raises for such a day — an error carrying the offending local
instant — instead of silently choosing one of the possible offsets. -/
theorem C7_localization_error (days : List Nat) (t : Nat) (tz : TzData) (d : Nat)
    (e0 : LocError) (hd : d ∈ days)
    (he : localizeOne tz ((d : Int) * 1440 + t) = .error e0) :
    ∃ d' ∈ days, ∃ err, days_at_time days t tz 0 = .error err ∧
      localizeOne tz ((d' : Int) * 1440 + t) = .error err :=
  days_at_time_error_of_mem days t tz d e0 hd he

/-- Witness for C7: 02:30 wall clock on 1991-04-14 (epoch day 7773) falls
in the spring-forward gap of Asia/Shanghai; `days_at_time` propagates the
nonexistent-time error for local minute 11193270. -/
theorem C7_localization_error_witness :
    days_at_time [7773] 150 shanghaiTz 0 = .error (.nonexistent 11193270) := by
  obtain ⟨d', hd', err, herr, he'⟩ :=
    C7_localization_error [7773] 150 shanghaiTz 7773 (.nonexistent 11193270)
      (by decide) rfl
  have hd2 : d' = 7773 := List.mem_singleton.1 hd'
  subst hd2
  have he2 : localizeOne shanghaiTz ((7773 : Int) * 1440 + 150) =
      .error (.nonexistent 11193270) := rfl
  have hee : LocError.nonexistent 11193270 = err := Except.error.inj (he2.symm.trans he')
  rw [← hee] at herr
  exact herr

set_option maxRecDepth 4000 in
/-- C8: the concrete scenario — for the one-day aligned construction on
2016-03-14 (epoch day 16874), the four boundaries are the UTC instants
01:31 (minute 16874*1440+91), 03:30 (+210), 05:01 (+301) and 07:00 (+420)
of that day, the before-break and after-break inclusive spans hold 120
minutes each, and the session holds 240 minutes in total. -/
theorem C8_concrete_scenario :
    SHSZ_init 16874 16874 [] 16874 16874 = .ok (mkCal 16874 16874 16874 16874 []) ∧
    (mkCal 16874 16874 16874 16874 []).schedule =
      [⟨16874, 16874 * 1440 + 91, 16874 * 1440 + 420,
        16874 * 1440 + 210, 16874 * 1440 + 301⟩] ∧
    (intRange (16874 * 1440 + 91) (16874 * 1440 + 210 + 1)).length = 120 ∧
    (intRange (16874 * 1440 + 301) (16874 * 1440 + 420 + 1)).length = 120 ∧
    minutes_per_session (mkCal 16874 16874 16874 16874 []) = [240] ∧
    (all_minutes (mkCal 16874 16874 16874 16874 [])).length = 240 := by
  refine ⟨rfl, rfl, by decide, by decide, rfl, by decide⟩

/-- C9: for every calendar constructed over the default range, the
`_minutes_per_session` count of a row (the "+2" form) equals the per-span
inclusive-endpoint count (the "+1 plus +1" form), which is exactly the
number of grid elements emitted for that row, and the whole grid is the
concatenation of the per-row blocks. -/
theorem C9_count_equivalence (s e : Nat) (hol : List Nat) (c : SHSZCal)
    (h : SHSZ_init s e hol s e = .ok c) :
    minutes_per_session c =
        c.schedule.map (fun r => (r.lunch_break_start - r.market_open + 1) +
          (r.market_close - r.lunch_break_end + 1)) ∧
      (∀ r ∈ c.schedule, ((minutesForRow r).length : Int) =
        (r.lunch_break_start - r.market_open + 1) +
          (r.market_close - r.lunch_break_end + 1)) ∧
      all_minutes c = (c.schedule.map minutesForRow).flatten := by
  rw [SHSZ_init_ok_eq _ _ _ _ _ _ h]
  refine ⟨?_, ?_, ?_⟩
  · unfold minutes_per_session
    exact List.map_congr_left (fun r _ => by ring)
  · intro r hr
    rw [mkCal_aligned_schedule, List.mem_map] at hr
    obtain ⟨d, _, rfl⟩ := hr
    rw [length_minutesForRow_mkRow]
    have h3 := locAt_diffs d
    simp only [mkRow]
    omega
  · rw [all_minutes_aligned, mkCal_aligned_schedule, List.map_map]
    rfl

/-- Witness for C9 at the aligned construction over 2016-03-29/30
(epoch days 16889-16890). -/
theorem C9_count_equivalence_witness :
    minutes_per_session (mkCal 16889 16890 16889 16890 []) =
      (mkCal 16889 16890 16889 16890 []).schedule.map
        (fun r => (r.lunch_break_start - r.market_open + 1) +
          (r.market_close - r.lunch_break_end + 1)) ∧
    ((minutesForRow (mkRow 16889)).length : Int) =
      ((mkRow 16889).lunch_break_start - (mkRow 16889).market_open + 1) +
        ((mkRow 16889).market_close - (mkRow 16889).lunch_break_end + 1) := by
  have h := C9_count_equivalence 16889 16890 [] (mkCal 16889 16890 16889 16890 []) rfl
  exact ⟨h.1, h.2.1 (mkRow 16889) (by decide)⟩

/-- C10: the base open/close series do not depend on the constructor
arguments — two successful constructions over the same defaults and holiday
set but different argument ranges inherit identical `_opens` / `_closes`
arrays; only the schedule index and the lunch-break columns are derived
from the arguments. -/
theorem C10_base_range_independent (s1 e1 s2 e2 sd ed : Nat) (hol : List Nat)
    (c1 c2 : SHSZCal)
    (h1 : SHSZ_init s1 e1 hol sd ed = .ok c1)
    (h2 : SHSZ_init s2 e2 hol sd ed = .ok c2) :
    c1.baseOpens = c2.baseOpens ∧ c1.baseCloses = c2.baseCloses ∧
      c1.allDays = tradingDays s1 e1 hol ∧ c2.allDays = tradingDays s2 e2 hol ∧
      c1.lunchBreakStarts =
        (tradingDays s1 e1 hol).map (fun d => locAt d lunch_break_start) ∧
      c1.lunchBreakEnds =
        (tradingDays s1 e1 hol).map (fun d => locAt d lunch_break_end) := by
  rw [SHSZ_init_ok_eq _ _ _ _ _ _ h1, SHSZ_init_ok_eq _ _ _ _ _ _ h2]
  exact ⟨rfl, rfl, rfl, rfl, rfl, rfl⟩

/-- Witness for C10: two constructions over the default range
2016-03-14..15, one with that same argument range and one with the shifted
range 2016-03-15..16 of equal session count, share the base open/close
arrays. -/
theorem C10_base_range_independent_witness :
    (mkCal 16874 16875 16874 16875 []).baseOpens =
      (mkCal 16875 16876 16874 16875 []).baseOpens ∧
    (mkCal 16874 16875 16874 16875 []).baseCloses =
      (mkCal 16875 16876 16874 16875 []).baseCloses := by
  have h := C10_base_range_independent 16874 16875 16875 16876 16874 16875 []
    (mkCal 16874 16875 16874 16875 []) (mkCal 16875 16876 16874 16875 []) rfl rfl
  exact ⟨h.1, h.2.1⟩
